import Mathlib

/-!
Verification development for the FileGPT indexing-and-retrieval engine.

Each Python module relevant to the verified claims is embedded shallowly:
pure functions become Lean functions, stateful code becomes explicit state
passing, fallible calls return `Option`/`Except`, and external collaborators
(the model runtime, the embedding model, the vector store) are supplied as
oracle parameters.  Machine floats that only ever carry scores are modelled
by `ℚ`; byte strings by `List Nat`.
-/

namespace FileGPT

/-! ### Python string primitives used by several services -/

/-- Python `str.strip()` restricted to ASCII whitespace: drop leading and
trailing whitespace characters. -/
def pyStrip (s : String) : String :=
  ⟨(s.data.dropWhile Char.isWhitespace).reverse.dropWhile Char.isWhitespace |>.reverse⟩

/-- Python `str.upper()` restricted to ASCII. -/
def pyUpper (s : String) : String := ⟨s.data.map Char.toUpper⟩

/-- Python `str.lower()` restricted to ASCII. -/
def pyLower (s : String) : String := ⟨s.data.map Char.toLower⟩

/-- Does `pat` occur at the head of `cs`? (helper for substring search). -/
def listLeadsWith : List Char → List Char → Bool
  | [], _ => true
  | _ :: _, [] => false
  | a :: as, b :: bs => a = b && listLeadsWith as bs

/-- Helper for `strContains`: does `n` occur in `hay` at any position? -/
def containsAux (n : List Char) : List Char → Bool
  | [] => listLeadsWith n []
  | c :: cs => listLeadsWith n (c :: cs) || containsAux n cs

/-- Python `needle in hay` substring containment. -/
def strContains (hay needle : String) : Bool :=
  containsAux needle.data hay.data

/-- Python `str.split()` with no argument: split on whitespace runs and drop
empty pieces. -/
def splitWsAux (acc : List Char) : List Char → List String
  | [] => if acc = [] then [] else [⟨acc.reverse⟩]
  | c :: cs =>
    if c.isWhitespace then
      if acc = [] then splitWsAux [] cs else ⟨acc.reverse⟩ :: splitWsAux [] cs
    else splitWsAux (c :: acc) cs

/-- Python `str.split()` with no argument. -/
def pySplitWs (s : String) : List String :=
  splitWsAux [] s.data

/-- Python `str.split(sep)` for a one-character separator (keeps empty
pieces, like Python). -/
def splitOnCharAux (sep : Char) (acc : List Char) : List Char → List String
  | [] => [⟨acc.reverse⟩]
  | c :: cs =>
    if c = sep then ⟨acc.reverse⟩ :: splitOnCharAux sep [] cs
    else splitOnCharAux sep (c :: acc) cs

/-- Python `str.split(sep)` for a one-character separator. -/
def pySplitOnChar (s : String) (sep : Char) : List String :=
  splitOnCharAux sep [] s.data

/-- Split a character list at every character satisfying `p` (keeps empty
pieces). -/
def splitPredAux (p : Char → Bool) (acc : List Char) : List Char → List String
  | [] => [⟨acc.reverse⟩]
  | c :: cs =>
    if p c then ⟨acc.reverse⟩ :: splitPredAux p [] cs
    else splitPredAux p (c :: acc) cs

/-- `os.path.basename` for POSIX paths: everything after the final `/`. -/
def basename (s : String) : String :=
  (pySplitOnChar s '/').getLastD s

/-! ### `config.py` — the configuration constants cited by the claims -/

/-- `SessionConfig.MAX_MESSAGES_PER_SESSION` from `config.py`. -/
def MAX_MESSAGES_PER_SESSION : Nat := 10

/-- `OllamaConfig.CIRCUIT_BREAKER_THRESHOLD` from `config.py`. -/
def CIRCUIT_BREAKER_THRESHOLD : Nat := 5

/-- `OllamaConfig.CIRCUIT_BREAKER_RESET` from `config.py` (seconds). -/
def CIRCUIT_BREAKER_RESET : Nat := 300

/-! ### `services/session_storage.py` — `PersistentSessionStorage.add_message`

The SQLite row stores the JSON-encoded message list; `add_message` loads it,
appends, trims to the last `MAX_MESSAGES_PER_SESSION` entries and writes it
back.  The pure content is the list transformation. -/

/-- One `{role, content, timestamp}` message of a session. -/
structure Message where
  role : String
  content : String
  timestamp : Nat
deriving DecidableEq, Repr

/-- `PersistentSessionStorage.add_message`, restricted to its effect on the
stored message list: append the new message, then keep only the last
`MAX_MESSAGES_PER_SESSION` messages (`messages = messages[-N:]`). -/
def add_message (messages : List Message) (m : Message) : List Message :=
  let appended := messages ++ [m]
  if MAX_MESSAGES_PER_SESSION < appended.length then
    appended.drop (appended.length - MAX_MESSAGES_PER_SESSION)
  else
    appended

/-- The message list of a session that started empty and received the
messages `msgs` in order through `add_message`. -/
def session_history (msgs : List Message) : List Message :=
  msgs.foldl add_message []

/-! ### `services/ollama_monitor.py` — `OllamaHealthMonitor` -/

/-- `OllamaStatus` from `ollama_monitor.py`. -/
inductive OllamaStatus
  | healthy
  | degraded
  | unavailable
deriving DecidableEq, Repr

/-- The mutable fields of `OllamaHealthMonitor` used by the breaker. -/
structure MonitorState where
  status : OllamaStatus
  consecutive_failures : Nat
  circuit_open_at : Option Nat
deriving DecidableEq, Repr

/-- The monitor's `__init__` state. -/
def monitorInit : MonitorState :=
  { status := .healthy, consecutive_failures := 0, circuit_open_at := none }

/-- `OllamaHealthMonitor.record_failure`, with `t` the value of `time.time()`
at the call. -/
def record_failure (t : Nat) (s : MonitorState) : MonitorState :=
  if CIRCUIT_BREAKER_THRESHOLD ≤ s.consecutive_failures + 1 then
    { status := .unavailable, consecutive_failures := s.consecutive_failures + 1,
      circuit_open_at := some t }
  else if 1 < s.consecutive_failures + 1 then
    { s with status := .degraded, consecutive_failures := s.consecutive_failures + 1 }
  else
    { s with consecutive_failures := s.consecutive_failures + 1 }

/-- `OllamaHealthMonitor.record_success`. -/
def record_success (s : MonitorState) : MonitorState :=
  if s.status = .unavailable then
    { status := .healthy, consecutive_failures := 0, circuit_open_at := none }
  else if s.status = .degraded then
    { s with status := .healthy, consecutive_failures := 0 }
  else
    { s with consecutive_failures := 0 }

/-- `OllamaHealthMonitor.is_circuit_open`, with `now` the value of
`time.time()` at the call.  When the status is `unavailable` the code reads
`self.circuit_open_at`; the state invariant (proved below) guarantees it is
set, and `getD 0` stands for that read. -/
def is_circuit_open (s : MonitorState) (now : Nat) : Bool :=
  if s.status = .unavailable then
    let elapsed := now - s.circuit_open_at.getD 0
    if CIRCUIT_BREAKER_RESET < elapsed then false else true
  else
    false

/-- A recorded model-runtime call outcome: a failure at time `t`, or a
success. -/
inductive MEvent
  | fail (t : Nat)
  | succ
deriving DecidableEq, Repr

/-- Apply one recorded outcome to the monitor. -/
def applyEvent (s : MonitorState) (e : MEvent) : MonitorState :=
  match e with
  | .fail t => record_failure t s
  | .succ => record_success s

/-- Run the monitor from its initial state over a list of recorded
outcomes. -/
def applyTrace (es : List MEvent) : MonitorState :=
  es.foldl applyEvent monitorInit

/-- Number of leading failures of an event list. -/
def leadFails : List MEvent → Nat
  | .fail _ :: es => leadFails es + 1
  | _ => 0

/-- Number of consecutive failures at the end of the trace, i.e. failures
recorded since the last success. -/
def trailingFails (es : List MEvent) : Nat :=
  leadFails es.reverse

/-! ### `services/metadata_db.py` — the catalog

Text content reaches the catalog as bytes (`content.encode('utf-8')`); we
model byte strings as `List Nat`.  `zlib` and `hashlib` are external
libraries, modelled from the spec below. -/

/-- Emit runs of the current byte `b` (already seen `cnt ∈ [1, 255]` times)
as count-byte pairs. -/
def rleAux (b : Nat) (cnt : Nat) : List Nat → List Nat
  | [] => [cnt, b]
  | x :: xs =>
    if x = b ∧ cnt < 255 then rleAux b (cnt + 1) xs
    else cnt :: b :: rleAux x 1 xs

/-- Modelled from the spec: `zlib.compress(content, level=6)` is an external
library call; the spec fixes only that "Compression is lossless; content blob
is recoverable byte-for-byte."  Modelled as byte run-length encoding: each
maximal run (capped at 255) becomes a count byte followed by the byte. -/
def compress_content : List Nat → List Nat
  | [] => []
  | b :: rest => rleAux b 1 rest

/-- Modelled from the spec: `zlib.decompress` is an external library call;
inverse of the run-length coding of `compress_content`. -/
def decompress_content : List Nat → List Nat
  | c :: b :: rest => List.replicate c b ++ decompress_content rest
  | _ => []

/-- The sixteen hexadecimal digit characters. -/
def hexDigit (n : Nat) : Char :=
  if n < 10 then Char.ofNat (48 + n) else Char.ofNat (87 + n % 16)

/-- Render a natural number as exactly 64 hexadecimal characters
(most-significant first), as `hashlib.sha256(...).hexdigest()` does. -/
def hex64 (n : Nat) : String :=
  ⟨(List.range 64).map fun i => hexDigit (n / 16 ^ (63 - i) % 16)⟩

/-- Modelled from the spec: `hashlib.sha256` is an external library; the spec
fixes only that the digest is a deterministic function of the content bytes,
rendered as 64 hex chars.  Modelled as a 256-bit polynomial fold. -/
def digestHex (bs : List Nat) : String :=
  hex64 (bs.foldl (fun acc b => (acc * 131 + b % 256 + 1) % 2 ^ 256) 7)

/-- `metadata_db.calculate_hash`: SHA-256 hex digest of the UTF-8 bytes. -/
def calculate_hash (content : List Nat) : String :=
  digestHex content

/-- One row of the `files` table. -/
structure FileRow where
  path : String
  hash : String
  content_text : List Nat
  summary : Option String
  processing_status : String
  last_indexed : Nat
deriving DecidableEq, Repr

/-- The catalog state: the rows of the `files` table.  `path` is declared
`UNIQUE`; the upsert below updates every row with a matching path, which on a
well-formed table is the single conflicting row. -/
abbrev Catalog := List FileRow

/-- The row `store_file_content` inserts for a fresh path. -/
def freshRow (path : String) (compressed : List Nat) (content_hash : String)
    (timestamp : Nat) : FileRow :=
  { path := path, hash := content_hash, content_text := compressed,
    summary := none, processing_status := "pending_embedding",
    last_indexed := timestamp }

/-- The `INSERT ... ON CONFLICT(path) DO UPDATE` of `store_file_content`:
update the conflicting row's hash, blob, status and timestamp (the summary
column is not in the update set and is preserved); insert when absent. -/
def upsertContentRows (db : Catalog) (path : String) (compressed : List Nat)
    (content_hash : String) (timestamp : Nat) : Catalog :=
  if db.any (fun r => r.path = path) then
    db.map fun r =>
      if r.path = path then
        { r with hash := content_hash, content_text := compressed,
                 processing_status := "pending_embedding", last_indexed := timestamp }
      else r
  else
    db ++ [freshRow path compressed content_hash timestamp]

/-- The error kind §7 of the spec assigns to catalog I/O failures. -/
inductive CatalogError
  | storageError
deriving DecidableEq, Repr

/-- `metadata_db.store_file_content`.  `ioFail` injects a failure of the
`cursor.execute`/`commit` statement; the source catches any exception, prints
a warning, rolls the statement back and returns normally, so the caller never
observes an error. -/
def store_file_content (ioFail : Bool) (db : Catalog) (path : String)
    (content : List Nat) (content_hash : String) (timestamp : Nat) :
    Catalog × Option CatalogError :=
  let compressed := compress_content content
  if ioFail then (db, none)
  else (upsertContentRows db path compressed content_hash timestamp, none)

/-- `metadata_db.update_processing_status` (same swallow-on-error shape). -/
def update_processing_status (ioFail : Bool) (db : Catalog) (path status : String) :
    Catalog × Option CatalogError :=
  if ioFail then (db, none)
  else ((db.map fun r => if r.path = path then { r with processing_status := status } else r),
        none)

/-- `metadata_db.update_summary`: sets the summary and forces the status to
`completed` (same swallow-on-error shape). -/
def update_summary (ioFail : Bool) (db : Catalog) (path summary : String) :
    Catalog × Option CatalogError :=
  if ioFail then (db, none)
  else ((db.map fun r =>
          if r.path = path then
            { r with summary := some summary, processing_status := "completed" }
          else r),
        none)

/-- `metadata_db.delete_metadata` (same swallow-on-error shape). -/
def delete_metadata (ioFail : Bool) (db : Catalog) (path : String) :
    Catalog × Option CatalogError :=
  if ioFail then (db, none)
  else (db.filter (fun r => r.path ≠ path), none)

/-- `SELECT ... FROM files WHERE path = ?` (first matching row). -/
def get_metadata (db : Catalog) (path : String) : Option FileRow :=
  db.find? (fun r => r.path = path)

/-- `metadata_db.get_summary`. -/
def get_summary (db : Catalog) (path : String) : Option String :=
  (get_metadata db path).bind (·.summary)

/-- `metadata_db.file_needs_reindex`: true iff no row for the path or the
content hash differs. -/
def file_needs_reindex (db : Catalog) (path : String) (content : List Nat) : Bool :=
  match get_metadata db path with
  | none => true
  | some row => calculate_hash content ≠ row.hash

/-- UTF-8 encoding of one character. -/
def utf8Bytes (c : Char) : List Nat :=
  let n := c.toNat
  if n < 0x80 then [n]
  else if n < 0x800 then
    [0xC0 ||| (n >>> 6), 0x80 ||| (n &&& 0x3F)]
  else if n < 0x10000 then
    [0xE0 ||| (n >>> 12), 0x80 ||| ((n >>> 6) &&& 0x3F), 0x80 ||| (n &&& 0x3F)]
  else
    [0xF0 ||| (n >>> 18), 0x80 ||| ((n >>> 12) &&& 0x3F),
     0x80 ||| ((n >>> 6) &&& 0x3F), 0x80 ||| (n &&& 0x3F)]

/-- Python `s.encode('utf-8')` as a byte list. -/
def strBytes (s : String) : List Nat :=
  s.data.flatMap utf8Bytes

/-! ### `services/fileParser.py` — `get_file_content`, size gate

The per-format extractors (`_extract_pdf`, `_extract_text`, ...) read the
file system and external parsing libraries; they are supplied as the
`extract` oracle.  The size gate itself is translated from the source. -/

/-- `MAX_TEXT_SIZE` from `get_file_content`: 10 MiB. -/
def MAX_TEXT_SIZE : Nat := 10 * 1024 * 1024

/-- `MAX_DOC_SIZE` from `get_file_content`: 50 MiB. -/
def MAX_DOC_SIZE : Nat := 50 * 1024 * 1024

/-- The extensions `get_file_content` reads into memory directly, subject to
the stricter 10 MiB limit. -/
def directReadExts : List String :=
  [".txt", ".md", ".py", ".js", ".json", ".xml", ".csv", ".log"]

/-- The `{x:.2f}` rendering of `size/1024/1024` in the oversize messages
(approximated by truncation to two decimals; no claim depends on the
digits). -/
def fmtMB (size : Nat) : String :=
  let c := size * 100 / (1024 * 1024)
  toString (c / 100) ++ "." ++ (if c % 100 < 10 then "0" else "") ++ toString (c % 100)

/-- `fileParser.get_file_content` for an existing file: `ext` is the
(lowercased in source) extension, `size` the `os.path.getsize` result, and
`extract` the outcome of the format-specific extractor dispatch (`none` for
unsupported types and extractor errors).  Note that both oversize branches
return a *non-empty marker string*, not `None`. -/
def get_file_content (ext : String) (size : Nat) (extract : Option String) :
    Option String :=
  if directReadExts.contains (pyLower ext) ∧ MAX_TEXT_SIZE < size then
    some ("[Error: File too large to read directly (" ++ fmtMB size ++ " MB)]")
  else if MAX_DOC_SIZE < size then
    some ("[Error: Document too large to parse (" ++ fmtMB size ++ " MB)]")
  else extract

/-! ### `services/searchEngine.py` — ingestion pipeline and hybrid search -/

/-- One BM25 metadata record: `{"source": ..., "summary": ..., "chunk_index": ...}`. -/
structure BMeta where
  source : String
  summary : String
  chunk_index : Nat
deriving DecidableEq, Repr

/-- The state `index_file_pipeline` reads and writes: the catalog, the BM25
parallel arrays, and the background embedding queue. -/
structure PipelineState where
  db : Catalog
  bm25_corpus : List String
  bm25_metadata : List BMeta
  embed_queue : List (String × List String)
deriving DecidableEq, Repr

/-- `searchEngine.index_file_pipeline`.  `split` is the external
`RecursiveCharacterTextSplitter.split_text`; `content` is the
`fileParser.get_file_content` result.  Python's `if not content` is true for
both `None` and the empty string. -/
def index_file_pipeline (split : String → List String) (timestamp : Nat)
    (content : Option String) (path : String) (st : PipelineState) :
    Bool × PipelineState :=
  match content with
  | none => (false, st)
  | some c =>
    if c = "" then (false, st)
    else if ¬ file_needs_reindex st.db path (strBytes c) then (false, st)
    else
      let contentHash := calculate_hash (strBytes c)
      let db' := (store_file_content false st.db path (strBytes c) contentHash timestamp).1
      let chunks := split c
      if chunks = [] then (false, { st with db := db' })
      else
        let existingSummary := (get_summary db' path).getD ""
        let metadatas := (List.range chunks.length).map fun i =>
          { source := path, summary := existingSummary, chunk_index := i : BMeta }
        let kept := (st.bm25_corpus.zip st.bm25_metadata).filter
          (fun p => p.2.source ≠ path)
        (true,
         { db := db',
           bm25_corpus := kept.map Prod.fst ++ chunks,
           bm25_metadata := kept.map Prod.snd ++ metadatas,
           embed_queue := st.embed_queue ++ [(path, chunks)] })

/-- `placeholder_markers` from `_resolve_summary_for_file`. -/
def placeholder_markers : List String :=
  ["generating summary", "summary unavailable", "summary generation returned empty"]

/-- `looks_like_placeholder` from `_resolve_summary_for_file`. -/
def looks_like_placeholder (s : String) : Bool :=
  if s = "" then true
  else
    let lower := pyLower s
    placeholder_markers.any (fun p => strContains lower p) ||
    (lower.data.head? = some '[' && lower.data.getLast? = some ']')

/-- `searchEngine._resolve_summary_for_file`.  `current_summary` is the
index-metadata summary of the result; `dbRead` is the outcome of
`metadata_db.get_summary` (`.error` when that call raises).  Returns the
summary value the function produces — `none` models Python falling off the
end of the function and returning `None` — paired with whether the
mark-pending-and-enqueue block ran.  In the source that block is nested
inside the `except` handler of the DB read, so it runs only when the read
raises. -/
def _resolve_summary_for_file (current_summary : String)
    (dbRead : Except Unit (Option String)) : Option String × Bool :=
  if current_summary ≠ "" ∧ ¬ looks_like_placeholder current_summary then
    (some current_summary, false)
  else
    match dbRead with
    | .ok (some s) =>
        if s ≠ "" ∧ ¬ looks_like_placeholder s then (some s, false)
        else (none, false)
    | .ok none => (none, false)
    | .error _ => (some "[Summary pending]", true)

/-- One entry of the `results` pool built by `hybrid_search`'s two branches. -/
structure SearchResult where
  content : String
  source : String
  summary : String
  score : ℚ
  method : String
deriving DecidableEq, Repr

/-- `generic_words` from `hybrid_search`. -/
def generic_words : List String :=
  ["find", "search", "show", "get", "look", "for", "all", "the", "a", "an", "my"]

/-- `main_keywords` from `hybrid_search`: lowercase whitespace split of the
query with the generic words removed. -/
def main_keywords (query : String) : List String :=
  (pySplitWs (pyLower query)).filter (fun w => ¬ generic_words.contains w)

/-- The boosted score of a pool entry: `result['score'] + boost`, where the
boost is `0.3` exactly when some main keyword occurs in the lowercased
basename of the source path or in the lowercased summary. -/
def boostedScore (kws : List String) (r : SearchResult) : ℚ :=
  let filename := pyLower (basename r.source)
  let summ := pyLower r.summary
  if kws.any (fun kw => strContains filename kw || strContains summ kw) then
    r.score + 3 / 10
  else r.score

/-- One iteration of the `seen_files` loop of `hybrid_search`: `seen` is the
insertion-ordered value list of the `seen_files` dict.  A new source is
appended; an existing source is replaced in place when the boosted score
strictly exceeds the stored (already boosted) score. -/
def updateSeen (kws : List String) (r : SearchResult) :
    List SearchResult → List SearchResult
  | [] => [{ r with score := boostedScore kws r }]
  | s :: ss =>
    if s.source = r.source then
      if s.score < boostedScore kws r then
        { r with score := boostedScore kws r } :: ss
      else s :: ss
    else s :: updateSeen kws r ss

/-- The whole `seen_files` loop over the result pool. -/
def mergeResults (kws : List String) (pool : List SearchResult) : List SearchResult :=
  pool.foldl (fun seen r => updateSeen kws r seen) []

/-- Stable insertion into a descending-by-score list (Python `list.sort` with
`reverse=True` is stable; an element is placed before the first element with
a score not above its own). -/
def insertDesc (x : SearchResult) : List SearchResult → List SearchResult
  | [] => [x]
  | y :: ys => if y.score ≤ x.score then x :: y :: ys else y :: insertDesc x ys

/-- Stable sort by descending score. -/
def sortDesc : List SearchResult → List SearchResult
  | [] => []
  | x :: xs => insertDesc x (sortDesc xs)

/-- `searchEngine.hybrid_search`, from the point where the two retrieval
branches have produced their entries of the `results` pool (the branches
call the external Chroma and BM25 libraries; their outputs are the
`semanticResults` and `keywordResults` inputs, in that order).  The final
summary/status resolution of the source (lines 363–375) rewrites the
`summary` and attaches `processing_status` via `_resolve_summary_for_file`
and `get_metadata`, modelled separately; it does not change scores, sources,
order or count. -/
def hybrid_search (query : String) (k : Nat)
    (semanticResults keywordResults : List SearchResult) : List SearchResult :=
  let kws := main_keywords query
  let pool := semanticResults ++ keywordResults
  (sortDesc (mergeResults kws pool)).take k

/-- The per-path dict update as claim C3's words read literally: keep the
chunk with the highest *pre-boost* fused score. -/
def updateSeenClaimed (r : SearchResult) :
    List SearchResult → List SearchResult
  | [] => [r]
  | s :: ss =>
    if s.source = r.source then
      if s.score < r.score then r :: ss else s :: ss
    else s :: updateSeenClaimed r ss

/-- The merge as claim C3's words read literally, for comparison with the
translated `hybrid_search`: per path keep the chunk with the highest fused
(pre-boost) score, then increase each kept score by the boost, then sort
descending and truncate to `k`. -/
def hybrid_search_claimed (query : String) (k : Nat)
    (semanticResults keywordResults : List SearchResult) : List SearchResult :=
  let kws := main_keywords query
  let pool := semanticResults ++ keywordResults
  let perPath := pool.foldl (fun seen r => updateSeenClaimed r seen) []
  (sortDesc (perPath.map fun r => { r with score := boostedScore kws r })).take k

/-! ### `services/rag_grader.py` — `DocumentGrader.grade_documents`

The grading reply is parsed by four tolerant strategies.  Strategy 1 uses
`json.loads`; the source then keeps the parse only when it is a list of
strings, so the model below parses exactly JSON arrays of scalar strings
(standard escapes included) and reports `none` otherwise — any other JSON
value leads to the same fall-through in the source. -/

/-- JSON whitespace skip. -/
def jsonWs (cs : List Char) : List Char :=
  cs.dropWhile fun c => c = ' ' || c = '\t' || c = '\n' || c = '\r'

/-- Value of a hexadecimal digit character. -/
def hexVal (c : Char) : Option Nat :=
  if '0' ≤ c ∧ c ≤ '9' then some (c.toNat - 48)
  else if 'a' ≤ c ∧ c ≤ 'f' then some (c.toNat - 87)
  else if 'A' ≤ c ∧ c ≤ 'F' then some (c.toNat - 55)
  else none

/-- Parse the body of a JSON string (after the opening quote), returning the
string and the remaining characters. -/
def jsonStringBody : Nat → List Char → List Char → Option (String × List Char)
  | 0, _, _ => none
  | _, [], _ => none
  | f + 1, c :: rest, acc =>
    if c = '"' then some (⟨acc.reverse⟩, rest)
    else if c = '\\' then
      match rest with
      | [] => none
      | e :: rest2 =>
        if e = '"' then jsonStringBody f rest2 ('"' :: acc)
        else if e = '\\' then jsonStringBody f rest2 ('\\' :: acc)
        else if e = '/' then jsonStringBody f rest2 ('/' :: acc)
        else if e = 'b' then jsonStringBody f rest2 (Char.ofNat 8 :: acc)
        else if e = 'f' then jsonStringBody f rest2 (Char.ofNat 12 :: acc)
        else if e = 'n' then jsonStringBody f rest2 ('\n' :: acc)
        else if e = 'r' then jsonStringBody f rest2 (Char.ofNat 13 :: acc)
        else if e = 't' then jsonStringBody f rest2 ('\t' :: acc)
        else if e = 'u' then
          match rest2 with
          | h1 :: h2 :: h3 :: h4 :: rest3 =>
            match hexVal h1, hexVal h2, hexVal h3, hexVal h4 with
            | some a, some b, some c2, some d =>
              jsonStringBody f rest3
                (Char.ofNat (((a * 16 + b) * 16 + c2) * 16 + d) :: acc)
            | _, _, _, _ => none
          | _ => none
        else none
    else if c.toNat < 0x20 then none
    else jsonStringBody f rest (c :: acc)

/-- Parse the elements of a JSON array of strings, positioned at the start
of an element. -/
def jsonArrayElems : Nat → List Char → List String → Option (List String × List Char)
  | 0, _, _ => none
  | f + 1, cs, acc =>
    match cs with
    | '"' :: rest =>
      match jsonStringBody (rest.length + 1) rest [] with
      | none => none
      | some (s, rest2) =>
        match jsonWs rest2 with
        | ',' :: rest3 => jsonArrayElems f (jsonWs rest3) (s :: acc)
        | ']' :: rest3 => some ((s :: acc).reverse, rest3)
        | _ => none
    | _ => none

/-- `json.loads(response_text)` restricted to arrays of strings (the only
shape the source accepts as decisions). -/
def jsonStringArray (s : String) : Option (List String) :=
  match jsonWs s.data with
  | '[' :: rest =>
    match jsonWs rest with
    | ']' :: rest2 => if jsonWs rest2 = [] then some [] else none
    | cs =>
      match jsonArrayElems (s.data.length + 1) cs [] with
      | some (xs, rest2) => if jsonWs rest2 = [] then some xs else none
      | none => none
  | _ => none

/-- Case-insensitive (ASCII) prefix test used by the regex scans. -/
def leadsWithCI : List Char → List Char → Bool
  | [], _ => true
  | _ :: _, [] => false
  | a :: as, b :: bs => a.toLower = b.toLower && leadsWithCI as bs

/-- Numeric value of a digit run. -/
def digitsToNat (ds : List Char) : Nat :=
  ds.foldl (fun a c => a * 10 + (c.toNat - 48)) 0

/-- Try to match `DOC\s*(\d+)\s*[:\-]\s*(RELEVANT|NOT_RELEVANT)` (with
`re.IGNORECASE`) at exactly this position, returning the captured index and
upper-cased decision plus the remaining characters. -/
def tryDocAt (cs : List Char) : Option ((Nat × String) × List Char) :=
  if leadsWithCI "doc".data cs then
    let cs1 := (cs.drop 3).dropWhile Char.isWhitespace
    let digits := cs1.takeWhile Char.isDigit
    if digits = [] then none
    else
      let idx := digitsToNat digits
      let cs2 := (cs1.drop digits.length).dropWhile Char.isWhitespace
      match cs2 with
      | c :: cs3 =>
        if c = ':' ∨ c = '-' then
          let cs4 := cs3.dropWhile Char.isWhitespace
          if leadsWithCI "relevant".data cs4 then
            some ((idx, "RELEVANT"), cs4.drop 8)
          else if leadsWithCI "not_relevant".data cs4 then
            some ((idx, "NOT_RELEVANT"), cs4.drop 12)
          else none
        else none
      | [] => none
  else none

/-- `re.findall` of the `DOC n: DECISION` pattern: scan left to right,
non-overlapping. -/
def docScan : Nat → List Char → List (Nat × String)
  | 0, _ => []
  | _, [] => []
  | f + 1, c :: cs =>
    match tryDocAt (c :: cs) with
    | some (m, rest) => m :: docScan f rest
    | none => docScan f cs

/-- Strategy 2's decision array: start from `NOT_RELEVANT` for every batch
member and apply the `DOC n` matches in order (`temp[idx] = decision` for
`0 <= idx < len(batch)` with `idx = int(n) - 1`). -/
def applyDocDecisions (batchLen : Nat) (ms : List (Nat × String)) : List String :=
  ms.foldl
    (fun temp m =>
      if 1 ≤ m.1 ∧ m.1 - 1 < batchLen then temp.set (m.1 - 1) m.2 else temp)
    (List.replicate batchLen "NOT_RELEVANT")

/-- Regex word characters (`\w`, ASCII restriction). -/
def isWordChar (c : Char) : Bool := c.isAlphanum || c = '_'

/-- Maximal word-character runs of a character list. -/
def wordRunsAux (acc : List Char) : List Char → List (List Char)
  | [] => if acc = [] then [] else [acc.reverse]
  | c :: cs =>
    if isWordChar c then wordRunsAux (c :: acc) cs
    else if acc = [] then wordRunsAux [] cs
    else acc.reverse :: wordRunsAux [] cs

/-- Strategy 3: `re.findall(r"\b(RELEVANT|NOT_RELEVANT)\b", ...,
re.IGNORECASE)` upper-cased — exactly the maximal word runs equal to one of
the two tokens. -/
def relevantTokens (s : String) : List String :=
  (wordRunsAux [] s.data).filterMap fun run =>
    let u := pyUpper ⟨run⟩
    if u = "RELEVANT" ∨ u = "NOT_RELEVANT" then some u else none

/-- `re.sub(r"[,;]+", "\n", ...)`: collapse every maximal run of commas and
semicolons into one newline. -/
def collapseSepsAux (prevSep : Bool) : List Char → List Char
  | [] => []
  | c :: cs =>
    if c = ',' || c = ';' then
      if prevSep then collapseSepsAux true cs
      else '\n' :: collapseSepsAux true cs
    else c :: collapseSepsAux false cs

/-- Strategy 4: normalise separators to newlines, split into lines, strip,
drop empties, and keep the lines that upper-case to one of the two tokens.
(Python `splitlines` treats `\r\n` as one break; splitting at each of `\n`
and `\r` differs only by empty pieces, which the non-empty filter drops.) -/
def fallbackLines (s : String) : List String :=
  let cleaned := collapseSepsAux false s.data
  let lines := ((splitPredAux (fun c => c = '\n' || c = Char.ofNat 13) [] cleaned).map
    pyStrip).filter (· ≠ "")
  lines.filterMap fun ln =>
    let u := pyUpper ln
    if u = "RELEVANT" ∨ u = "NOT_RELEVANT" then some u else none

/-- The four parsing strategies of `grade_documents`, tried in order on the
stripped reply text. -/
def parseDecisions (response_text : String) (batchLen : Nat) : Option (List String) :=
  match (jsonStringArray response_text).map (fun xs => xs.map fun x => pyUpper (pyStrip x)) with
  | some ds => some ds
  | none =>
    let docs := docScan (response_text.data.length + 1) response_text.data
    if docs ≠ [] then some (applyDocDecisions batchLen docs)
    else
      let tokens := relevantTokens response_text
      if tokens ≠ [] ∧ tokens.length = batchLen then some tokens
      else
        let possible := fallbackLines response_text
        if possible.length = batchLen then some possible
        else none

/-- `DocumentGrader.batch_size`. -/
def batch_size : Nat := 5

/-- The `range(0, len(documents), 5)` batch slicing (with
`batch_size = 5`). -/
def batches5 {α : Type} : List α → List (List α)
  | [] => []
  | a :: b :: c :: d :: e :: rest => [a, b, c, d, e] :: batches5 rest
  | l => [l]

/-- One iteration of the batch loop of `grade_documents`: `outcome` is the
model-runtime reply for this batch (`.error` when `ollama.chat` or anything
in the `try` raises, in which case the batch is kept).  On parse failure or
decision-count mismatch the batch is kept; otherwise document `i` is kept
exactly when `decisions[i].upper() == "RELEVANT"`. -/
def gradeBatch {α : Type} (outcome : Except Unit String) (batch : List α) : List α :=
  match outcome with
  | .error _ => batch
  | .ok reply =>
    let response_text := pyStrip reply
    match parseDecisions response_text batch.length with
    | none => batch
    | some decisions =>
      if decisions.length ≠ batch.length then batch
      else (batch.zip decisions).filterMap fun p =>
        if pyUpper p.2 = "RELEVANT" then some p.1 else none

/-- `DocumentGrader.grade_documents` (the filtered document list; the second
component of the source's return value is just `len(documents)`).  `oracle`
gives the model reply per batch number. -/
def grade_documents {α : Type} (oracle : Nat → Except Unit String) (docs : List α) :
    List α :=
  (((batches5 docs).enum).map fun p => gradeBatch (oracle p.1) p.2).flatten

/-! ### `services/rag_workflow.py` — the self-correcting workflow

The LangGraph graph of `build_rag_workflow` is a deterministic state machine;
`wfStep` performs one node execution together with the edge decision that
follows it.  The three model-runtime collaborators are oracles indexed by
call number, so that the claims quantify over everything the grader and
transformer can return. -/

/-- The workflow nodes, plus the `END` state. -/
inductive WFNode
  | retrieve
  | grade
  | decide
  | transform
  | generate
  | done
deriving DecidableEq, Repr

/-- The LangGraph state dict of `RAGState.to_dict`, plus the
`"_retry_retrieve"` key that `transform_query_node` adds (absent at start,
modelled `false`; the source never clears it once set). -/
structure RagState where
  query : String
  k : Nat
  documents : List SearchResult
  graded_documents : List SearchResult
  should_generate : Bool
  transformed_query : Option String
  retrieval_count : Nat
  generation_result : Option (Nat × Nat × Nat)
  attempts : Nat
  max_attempts : Nat
  retry_retrieve : Bool
deriving DecidableEq, Repr

/-- `RAGState.__init__(query, k).to_dict()`. -/
def ragInit (query : String) (k : Nat) : RagState :=
  { query := query, k := k, documents := [], graded_documents := [],
    should_generate := false, transformed_query := none, retrieval_count := 0,
    generation_result := none, attempts := 0, max_attempts := 3,
    retry_retrieve := false }

/-- The workflow's collaborators: the hybrid retriever, the grader's filtered
output per grading call, and the query transformer's result per
transformation call (`none` when the rewrite is empty, unchanged, or the
call raised). -/
structure WFOracles where
  retrieve : String → Nat → List SearchResult
  gradeKeep : Nat → String → List SearchResult → List SearchResult
  transform : Nat → Option String

/-- A machine configuration: current node, state dict, how often the grader
and transformer have been invoked, and how often `retrieve_node` has run. -/
structure WFConfig where
  node : WFNode
  st : RagState
  gradeCalls : Nat
  transformCalls : Nat
  retrieveVisits : Nat
deriving DecidableEq, Repr

/-- The `after_transform` conditional edge of `build_rag_workflow`:
`"retrieve" if state.get("_retry_retrieve") and state["attempts"] <
state["max_attempts"] else "generate"`. -/
def nextAfterTransform (st : RagState) : WFNode :=
  if st.retry_retrieve ∧ st.attempts < st.max_attempts then .retrieve else .generate

/-- One node execution plus the following edge decision, translated from
`retrieve_node`, `grade_node`, `decide_node`, `transform_query_node`,
`generate_node` and the edges of `build_rag_workflow`.  `generate_node`'s
answer text comes from the model runtime; only its `grading_stats` triple
`(retrieved, graded, attempts)` is recorded here. -/
def wfStep (o : WFOracles) (c : WFConfig) : WFConfig :=
  match c.node with
  | .retrieve =>
    let q := c.st.transformed_query.getD c.st.query
    let docs := o.retrieve q c.st.k
    { c with node := .grade,
             retrieveVisits := c.retrieveVisits + 1,
             st := { c.st with documents := docs, retrieval_count := docs.length } }
  | .grade =>
    if c.st.documents = [] then
      { c with node := .decide, st := { c.st with graded_documents := [] } }
    else
      let graded := o.gradeKeep c.gradeCalls c.st.query c.st.documents
      { c with node := .decide, gradeCalls := c.gradeCalls + 1,
               st := { c.st with graded_documents := graded } }
  | .decide =>
    let sg := 0 < c.st.graded_documents.length
    { c with st := { c.st with should_generate := sg },
             node := if sg then .generate else .transform }
  | .transform =>
    if c.st.should_generate ∨ c.st.max_attempts ≤ c.st.attempts then
      { c with node := nextAfterTransform c.st }
    else
      match o.transform c.transformCalls with
      | some nq =>
        let st' := { c.st with transformed_query := some nq,
                               attempts := c.st.attempts + 1, retry_retrieve := true }
        { c with st := st', transformCalls := c.transformCalls + 1,
                 node := nextAfterTransform st' }
      | none =>
        let st' := { c.st with should_generate := true }
        { c with st := st', transformCalls := c.transformCalls + 1,
                 node := nextAfterTransform st' }
  | .generate =>
    let stats := (c.st.retrieval_count, c.st.graded_documents.length, c.st.attempts)
    { c with node := .done, st := { c.st with generation_result := some stats } }
  | .done => c

/-- The machine after `n` steps from the entry point (`set_entry_point
("retrieve")`). -/
def wfRun (o : WFOracles) (query : String) (k : Nat) : Nat → WFConfig
  | 0 => { node := .retrieve, st := ragInit query k, gradeCalls := 0,
           transformCalls := 0, retrieveVisits := 0 }
  | n + 1 => wfStep o (wfRun o query k n)

/-- An adversarial but perfectly legal environment: retrieval finds nothing,
the grader keeps nothing, and the transformer produces a rewrite on its
first call and fails (empty/unchanged/raising — all return `None`) on every
later call. -/
def advOracles : WFOracles :=
  { retrieve := fun _ _ => [],
    gradeKeep := fun _ _ _ => [],
    transform := fun i => if i = 0 then some "merge sort implementation" else none }

/-- The configuration the adversarial run reaches after `4 * v` steps, for
every `v ≥ 2` (proved below): the machine cycles through
retrieve → grade → decide → transform forever. -/
def cycleCfg (query : String) (v : Nat) : WFConfig :=
  { node := .retrieve,
    st := { query := query, k := 5, documents := [], graded_documents := [],
            should_generate := true,
            transformed_query := some "merge sort implementation",
            retrieval_count := 0, generation_result := none, attempts := 1,
            max_attempts := 3, retry_retrieve := true },
    gradeCalls := 0, transformCalls := v, retrieveVisits := v }

/-! ### `services/rate_limiter.py` — `RateLimitStore.is_allowed` and the
middleware -/

/-- Digit accumulation of Python `int(s)` after the first digit: further
digits, with single underscores allowed between digits. -/
def pyDigitsVal (acc : Nat) : List Char → Option Nat
  | [] => some acc
  | c :: rest =>
    if c.isDigit then pyDigitsVal (acc * 10 + (c.toNat - 48)) rest
    else if c = '_' then
      match rest with
      | d :: rest2 =>
        if d.isDigit then pyDigitsVal (acc * 10 + (d.toNat - 48)) rest2 else none
      | [] => none
    else none

/-- Python `int(s)`: `ValueError` becomes `none`. -/
def pyInt (s : String) : Option Int :=
  let cs := (s.data.dropWhile Char.isWhitespace).reverse.dropWhile Char.isWhitespace
    |>.reverse
  match cs with
  | '+' :: c :: rest =>
    if c.isDigit then (pyDigitsVal (c.toNat - 48) rest).map Int.ofNat else none
  | '-' :: c :: rest =>
    if c.isDigit then (pyDigitsVal (c.toNat - 48) rest).map fun n => -(n : Int)
    else none
  | c :: rest =>
    if c.isDigit then (pyDigitsVal (c.toNat - 48) rest).map Int.ofNat else none
  | [] => none

/-- The `requests_allowed, time_window = limit.split("/");
requests_allowed = int(requests_allowed)` step of `is_allowed`; `none` is
the caught `ValueError` (wrong number of parts, or non-numeric count). -/
def parseLimitPair (limit : String) : Option (Int × String) :=
  match pySplitOnChar limit '/' with
  | [a, b] => (pyInt a).map fun n => (n, b)
  | _ => none

/-- The window conversion of `is_allowed`: `"second"` and `"minute"` are
special-cased, anything else goes through `int(time_window)` *outside* the
`try`, so a failure there raises out of `is_allowed` (`none` here means
raised). -/
def windowSeconds (time_window : String) : Option Int :=
  if time_window = "second" then some 1
  else if time_window = "minute" then some 60
  else pyInt time_window

/-- `RateLimitStore.is_allowed` for one `(client_ip, endpoint)` pair whose
recorded timestamps are `times`; `now` is `time.time()`.  Returns the
decision and the updated timestamp list, or `.error` when the window parse
raises. -/
def is_allowed (limit : String) (times : List ℚ) (now : ℚ) :
    Except Unit (Bool × List ℚ) :=
  match parseLimitPair limit with
  | none => .ok (true, times)
  | some (requests_allowed, time_window) =>
    match windowSeconds time_window with
    | none => .error ()
    | some w =>
      let cutoff := now - (w : ℚ)
      let valid := times.filter fun t => cutoff < t
      if (valid.length : Int) < requests_allowed then .ok (true, valid ++ [now])
      else .ok (false, valid)

/-- The middleware's verdict on a request. -/
inductive DispatchOutcome
  | passed
  | rejected429
deriving DecidableEq, Repr

/-- `RateLimitMiddleware.dispatch` for one request: `limit` is the
configured limit string of the endpoint (`none` when the endpoint is not in
`RateLimitConfig.LIMITS`).  The whole body is wrapped in `try/except`; on
any exception the request is passed through. -/
def dispatch : Option String → List ℚ → ℚ → DispatchOutcome × List ℚ
  | none, times, _ => (.passed, times)
  | some l, times, now =>
    match is_allowed l times now with
    | .error _ => (.passed, times)
    | .ok (true, ts) => (.passed, ts)
    | .ok (false, ts) => (.rejected429, ts)

/-! ## Theorems -/

/-- `add_message` in drop form: the stored list is always the suffix of the
append sequence that keeps the newest `MAX_MESSAGES_PER_SESSION` entries. -/
theorem add_message_eq_drop (ms : List Message) (m : Message) :
    add_message ms m = (ms ++ [m]).drop (ms.length + 1 - MAX_MESSAGES_PER_SESSION) := by
  unfold add_message MAX_MESSAGES_PER_SESSION
  simp only [List.length_append, List.length_cons, List.length_nil, Nat.zero_add]
  split
  · rfl
  · have h : ms.length + 1 - 10 = 0 := by omega
    rw [h, List.drop_zero]

/-- The history of a session that received `msgs` in order is exactly the
final `MAX_MESSAGES_PER_SESSION`-suffix of `msgs`. -/
theorem session_history_eq_drop (msgs : List Message) :
    session_history msgs = msgs.drop (msgs.length - MAX_MESSAGES_PER_SESSION) := by
  induction msgs using List.reverseRecOn with
  | nil => rfl
  | append_singleton l a ih =>
    have hstep : session_history (l ++ [a]) = add_message (session_history l) a := by
      simp [session_history, List.foldl_append]
    rw [hstep, ih, add_message_eq_drop, List.length_drop]
    have hr : (l ++ [a]).length - MAX_MESSAGES_PER_SESSION
        = l.length + 1 - MAX_MESSAGES_PER_SESSION := by
      simp [MAX_MESSAGES_PER_SESSION]
    rw [hr]
    simp only [MAX_MESSAGES_PER_SESSION]
    rcases le_or_lt l.length 9 with h | h
    · have h2 : l.length - (l.length - 10) + 1 - 10 = 0 := by omega
      have h3 : l.length + 1 - 10 = 0 := by omega
      have h1 : l.length - 10 = 0 := by omega
      rw [h2, h3, h1, List.drop_zero, List.drop_zero, List.drop_zero]
    · have h2 : l.length - (l.length - 10) + 1 - 10 = 1 := by omega
      rw [h2, List.drop_append_eq_append_drop, List.drop_append_eq_append_drop,
        List.drop_drop, List.length_drop]
      have h4 : 1 - (l.length - (l.length - 10)) = 0 := by omega
      have h5 : l.length + 1 - 10 - l.length = 0 := by omega
      have h6 : l.length - 10 + 1 = l.length + 1 - 10 := by omega
      rw [h4, h5, h6]

/-- C7: for every session and every sequence of `add_message` operations the
stored history has length at most `N = 10`, and eviction is FIFO — the
history is exactly the suffix of the appended messages keeping the 10 most
recent (so the oldest are evicted first); moreover a single `add_message`
leaves at most 10 messages from any starting list. -/
theorem C7_session_bounded_fifo :
    (∀ msgs : List Message,
        session_history msgs = msgs.drop (msgs.length - MAX_MESSAGES_PER_SESSION) ∧
        (session_history msgs).length ≤ MAX_MESSAGES_PER_SESSION) ∧
    (∀ (ms : List Message) (m : Message),
        (add_message ms m).length ≤ MAX_MESSAGES_PER_SESSION) := by
  constructor
  · intro msgs
    refine ⟨session_history_eq_drop msgs, ?_⟩
    rw [session_history_eq_drop]
    simp only [List.length_drop, MAX_MESSAGES_PER_SESSION]
    omega
  · intro ms m
    rw [add_message_eq_drop]
    simp only [List.length_drop, List.length_append, List.length_cons,
      List.length_nil, MAX_MESSAGES_PER_SESSION]
    omega

/-- Splitting a trace at its last event. -/
theorem applyTrace_snoc (es : List MEvent) (e : MEvent) :
    applyTrace (es ++ [e]) = applyEvent (applyTrace es) e := by
  simp [applyTrace, List.foldl_append]

/-- A trailing failure increments the trailing-failure count. -/
theorem trailingFails_snoc_fail (es : List MEvent) (t : Nat) :
    trailingFails (es ++ [.fail t]) = trailingFails es + 1 := by
  simp [trailingFails, List.reverse_append, leadFails]

/-- A trailing success resets the trailing-failure count. -/
theorem trailingFails_snoc_succ (es : List MEvent) :
    trailingFails (es ++ [.succ]) = 0 := by
  simp [trailingFails, List.reverse_append]
  rfl

/-- Running the monitor over any trace keeps `consecutive_failures` equal to
the number of failures since the last success, and the breaker is open
exactly when that count has reached the threshold. -/
theorem monitor_invariant (es : List MEvent) :
    (applyTrace es).consecutive_failures = trailingFails es ∧
    ((applyTrace es).status = .unavailable ↔
      CIRCUIT_BREAKER_THRESHOLD ≤ trailingFails es) := by
  induction es using List.reverseRecOn with
  | nil => decide
  | append_singleton es e ih =>
    obtain ⟨ihc, ihs⟩ := ih
    rw [applyTrace_snoc]
    cases e with
    | succ =>
      rw [trailingFails_snoc_succ]
      simp only [applyEvent]
      unfold record_success
      by_cases h1 : (applyTrace es).status = .unavailable
      · rw [if_pos h1]
        simp [CIRCUIT_BREAKER_THRESHOLD]
      · rw [if_neg h1]
        by_cases h2 : (applyTrace es).status = .degraded
        · rw [if_pos h2]
          simp [CIRCUIT_BREAKER_THRESHOLD]
        · rw [if_neg h2]
          refine ⟨rfl, ?_⟩
          constructor
          · intro h
            exact absurd h h1
          · intro h
            simp only [CIRCUIT_BREAKER_THRESHOLD] at h
            omega
    | fail t =>
      rw [trailingFails_snoc_fail]
      simp only [applyEvent]
      unfold record_failure
      rw [ihc]
      by_cases h5 : CIRCUIT_BREAKER_THRESHOLD ≤ trailingFails es + 1
      · rw [if_pos h5]
        exact ⟨rfl, by simpa using h5⟩
      · rw [if_neg h5]
        by_cases h2 : 1 < trailingFails es + 1
        · rw [if_pos h2]
          refine ⟨rfl, ?_⟩
          constructor
          · intro h
            exact absurd h (by simp)
          · intro h
            exact absurd h h5
        · rw [if_neg h2]
          refine ⟨rfl, ?_⟩
          constructor
          · intro h
            have hge := ihs.mp h
            simp only [CIRCUIT_BREAKER_THRESHOLD] at hge h5
            omega
          · intro h
            exact absurd h h5

/-- C8: the breaker is `Unavailable` exactly when the recorded consecutive
failures since the last success have reached `T = 5`; while `Unavailable`
the circuit reports open until the 300-second cool-down has elapsed (after
which the probe is let through); and a single recorded success resets the
failure count to 0 and returns the state to `Healthy`. -/
theorem C8_circuit_breaker :
    (∀ es : List MEvent,
        (applyTrace es).consecutive_failures = trailingFails es ∧
        ((applyTrace es).status = .unavailable ↔
          CIRCUIT_BREAKER_THRESHOLD ≤ trailingFails es)) ∧
    (∀ s : MonitorState,
        (record_success s).status = .healthy ∧
        (record_success s).consecutive_failures = 0) ∧
    (∀ (s : MonitorState) (now t : Nat),
        s.status = .unavailable → s.circuit_open_at = some t →
        (is_circuit_open s now = true ↔ now - t ≤ CIRCUIT_BREAKER_RESET)) ∧
    (∀ (s : MonitorState) (now : Nat),
        s.status ≠ .unavailable → is_circuit_open s now = false) := by
  refine ⟨monitor_invariant, ?_, ?_, ?_⟩
  · intro s
    unfold record_success
    by_cases h1 : s.status = .unavailable
    · rw [if_pos h1]
      exact ⟨rfl, rfl⟩
    · rw [if_neg h1]
      by_cases h2 : s.status = .degraded
      · rw [if_pos h2]
        exact ⟨rfl, rfl⟩
      · rw [if_neg h2]
        refine ⟨?_, rfl⟩
        cases h : s.status with
        | healthy => rfl
        | degraded => exact absurd h h2
        | unavailable => exact absurd h h1
  · intro s now t hs ht
    unfold is_circuit_open
    rw [if_pos hs, ht]
    simp only [Option.getD_some]
    by_cases hgt : CIRCUIT_BREAKER_RESET < now - t
    · rw [if_pos hgt]
      simp only [CIRCUIT_BREAKER_RESET] at hgt
      constructor
      · intro hfalse
        exact absurd hfalse (by simp)
      · intro hle
        exact absurd hle (by simp [CIRCUIT_BREAKER_RESET]; omega)
    · rw [if_neg hgt]
      simp only [CIRCUIT_BREAKER_RESET] at hgt ⊢
      exact ⟨fun _ => by omega, fun _ => trivial⟩
  · intro s now hs
    unfold is_circuit_open
    rw [if_neg hs]

/-- C8 witness: five straight failures open the breaker; 300 seconds after
opening the circuit still reports open, and the reset clause applies to a
concrete open state. -/
theorem C8_circuit_breaker_witness :
    (applyTrace [.fail 0, .fail 1, .fail 2, .fail 3, .fail 4]).status = .unavailable ∧
    is_circuit_open ⟨.unavailable, 5, some 10⟩ 310 = true ∧
    (record_success ⟨.unavailable, 5, some 10⟩).status = .healthy := by
  refine ⟨?_, ?_, (C8_circuit_breaker.2.1 ⟨.unavailable, 5, some 10⟩).1⟩
  · exact (C8_circuit_breaker.1 [.fail 0, .fail 1, .fail 2, .fail 3, .fail 4]).2.mpr
      (by decide)
  · exact (C8_circuit_breaker.2.2.1 ⟨.unavailable, 5, some 10⟩ 310 10 rfl rfl).mpr
      (by decide)

/-- C9 counterexample: a content store whose SQL statement fails does not
surface any error — in particular not the claimed `StorageError` — to its
caller; it returns normally with the catalog rolled back. -/
theorem C9_counterexample :
    (store_file_content true [] "/a/x.txt" [104] "h" 0).2 ≠
      some CatalogError.storageError ∧
    store_file_content true [] "/a/x.txt" [104] "h" 0 = ([], none) := by
  constructor
  · intro h
    simp [store_file_content] at h
  · rfl

/-- C9 amended: on an I/O failure every catalog write operation (content
store, status update, summary update, delete) rolls back the current
statement — leaving the catalog unchanged — and swallows the error, logging
it and returning normally; no error value reaches the caller. -/
theorem C9_catalog_failures_swallowed :
    (∀ (f : Bool) (db : Catalog) (p : String) (c : List Nat) (h : String) (t : Nat),
        (store_file_content f db p c h t).2 = none ∧
        (f = true → (store_file_content f db p c h t).1 = db)) ∧
    (∀ (f : Bool) (db : Catalog) (p s : String),
        (update_processing_status f db p s).2 = none ∧
        (f = true → (update_processing_status f db p s).1 = db)) ∧
    (∀ (f : Bool) (db : Catalog) (p s : String),
        (update_summary f db p s).2 = none ∧
        (f = true → (update_summary f db p s).1 = db)) ∧
    (∀ (f : Bool) (db : Catalog) (p : String),
        (delete_metadata f db p).2 = none ∧
        (f = true → (delete_metadata f db p).1 = db)) := by
  refine ⟨?_, ?_, ?_, ?_⟩
  · intro f db p c h t
    cases f <;> simp [store_file_content]
  · intro f db p s
    cases f <;> simp [update_processing_status]
  · intro f db p s
    cases f <;> simp [update_summary]
  · intro f db p
    cases f <;> simp [delete_metadata]

/-- C9 witness: the amended statement applied to concrete failing writes. -/
theorem C9_swallowed_witness :
    (update_processing_status true [] "/a/x.txt" "completed").1 = [] ∧
    (update_summary true [] "/a/x.txt" "s").2 = none :=
  ⟨(C9_catalog_failures_swallowed.2.1 true [] "/a/x.txt" "completed").2 rfl,
   (C9_catalog_failures_swallowed.2.2.1 true [] "/a/x.txt" "s").1⟩

/-- C10: the rate limiter fails open — a limit string that does not parse as
`"N/window"` makes `is_allowed` admit the request (recording nothing), and
any exception raised inside `is_allowed` is caught by the middleware, which
passes the request through instead of rejecting it. -/
theorem C10_rate_limiter_fails_open :
    (∀ (limit : String) (times : List ℚ) (now : ℚ),
        parseLimitPair limit = none →
        is_allowed limit times now = .ok (true, times)) ∧
    (∀ (limit : String) (times : List ℚ) (now : ℚ),
        is_allowed limit times now = .error () →
        dispatch (some limit) times now = (.passed, times)) := by
  constructor
  · intro limit times now hparse
    unfold is_allowed
    rw [hparse]
  · intro limit times now hraise
    simp only [dispatch]
    rw [hraise]

/-- C10 witness: a malformed limit string admits, and a window that only
`int()` could parse (and cannot) raises yet the request is passed through. -/
theorem C10_rate_limiter_witness :
    is_allowed "nolimit" [] 0 = .ok (true, []) ∧
    dispatch (some "1/hour") [] 0 = (.passed, []) :=
  ⟨C10_rate_limiter_fails_open.1 "nolimit" [] 0 rfl,
   C10_rate_limiter_fails_open.2 "1/hour" [] 0 rfl⟩

/-- C4: (code bug) when the result's own summary is empty and the catalog
read *returns* a missing summary (rather than raising), the function falls
off the end — the summary comes back as Python `None`, not
`"[Summary pending]"`, and nothing is enqueued; the mark-pending-and-enqueue
block is nested inside the `except` handler and runs only when the catalog
read raises. -/
theorem C4_pending_placeholder_unreachable :
    _resolve_summary_for_file "" (Except.ok none) = (none, false) ∧
    _resolve_summary_for_file "" (Except.ok (some "[Generating summary...]")) =
      (none, false) ∧
    _resolve_summary_for_file "" (Except.error ()) =
      (some "[Summary pending]", true) := by
  refine ⟨rfl, ?_, rfl⟩
  decide

/-- C2: (code bug) a `.txt` file one byte over the 10 MiB ceiling makes
`get_file_content` return a *truthy* error-marker string instead of `None`;
`index_file_pipeline` treats it as file content and writes state: a catalog
row is created for the path, keyword-index entries are added, and an
embedding job is enqueued.  (`fun s => [s]` is the splitter's behaviour on
text shorter than the 600-character window.) -/
theorem C2_toolarge_writes_state :
    get_file_content ".txt" (10 * 1024 * 1024 + 1) none =
      some "[Error: File too large to read directly (10.00 MB)]" ∧
    (index_file_pipeline (fun s => [s]) 0
        (get_file_content ".txt" (10 * 1024 * 1024 + 1) none)
        "/data/big.txt" ⟨[], [], [], []⟩).1 = true ∧
    ((index_file_pipeline (fun s => [s]) 0
        (get_file_content ".txt" (10 * 1024 * 1024 + 1) none)
        "/data/big.txt" ⟨[], [], [], []⟩).2.db.map FileRow.path) = ["/data/big.txt"] ∧
    (index_file_pipeline (fun s => [s]) 0
        (get_file_content ".txt" (10 * 1024 * 1024 + 1) none)
        "/data/big.txt" ⟨[], [], [], []⟩).2.bm25_corpus =
      ["[Error: File too large to read directly (10.00 MB)]"] ∧
    (index_file_pipeline (fun s => [s]) 0
        (get_file_content ".txt" (10 * 1024 * 1024 + 1) none)
        "/data/big.txt" ⟨[], [], [], []⟩).2.embed_queue =
      [("/data/big.txt", ["[Error: File too large to read directly (10.00 MB)]"])] := by
  refine ⟨by decide, by decide, by decide, by decide, by decide⟩

/-- Decoding an emitted run stream prepends the pending run and recovers the
remaining input. -/
theorem decompress_rleAux (l : List Nat) :
    ∀ (b cnt : Nat), decompress_content (rleAux b cnt l) = List.replicate cnt b ++ l := by
  induction l with
  | nil =>
    intro b cnt
    simp [rleAux, decompress_content]
  | cons x xs ih =>
    intro b cnt
    by_cases hx : x = b ∧ cnt < 255
    · rw [rleAux, if_pos hx, ih, List.replicate_succ', List.append_assoc]
      rw [hx.1]
      rfl
    · rw [rleAux, if_neg hx]
      show decompress_content (cnt :: b :: rleAux x 1 xs) = _
      rw [decompress_content, ih]
      rfl

/-- The run-length coding is lossless. -/
theorem decompress_compress : ∀ s : List Nat, decompress_content (compress_content s) = s
  | [] => rfl
  | b :: rest => by
    rw [compress_content, decompress_rleAux]
    rfl

/-- C6: compression is lossless — `decompress_content ∘ compress_content`
is the identity — and every catalog row written through
`store_file_content` with the hash the ingestion pipeline passes
(`calculate_hash content`) stores a hash equal to the digest of the
decompressed content blob. -/
theorem C6_content_hash_roundtrip :
    (∀ s : List Nat, decompress_content (compress_content s) = s) ∧
    (∀ (db : Catalog) (path : String) (content : List Nat) (t : Nat) (row : FileRow),
        row ∈ (store_file_content false db path content (calculate_hash content) t).1 →
        row.path = path →
        row.hash = calculate_hash (decompress_content row.content_text)) := by
  refine ⟨decompress_compress, ?_⟩
  intro db path content t row hmem hpath
  have hmem' : row ∈ upsertContentRows db path (compress_content content)
      (calculate_hash content) t := by
    simpa [store_file_content] using hmem
  unfold upsertContentRows at hmem'
  by_cases hany : db.any (fun r => r.path = path) = true
  · rw [if_pos hany] at hmem'
    rcases List.mem_map.mp hmem' with ⟨r, hr, hfr⟩
    by_cases hp : r.path = path
    · rw [if_pos hp] at hfr
      rw [← hfr]
      simp only
      rw [decompress_compress]
    · rw [if_neg hp] at hfr
      rw [← hfr] at hpath
      exact absurd hpath hp
  · rw [if_neg hany] at hmem'
    rcases List.mem_append.mp hmem' with hin | hone
    · exfalso
      apply hany
      rw [List.any_eq_true]
      exact ⟨row, hin, by simpa using hpath⟩
    · rcases List.mem_singleton.mp hone with rfl
      simp only [freshRow]
      rw [decompress_compress]

/-- C6 witness: the hash invariant evaluated on a concrete fresh store. -/
theorem C6_roundtrip_witness :
    (freshRow "/a/x.txt" (compress_content [104, 105]) (calculate_hash [104, 105]) 3).hash
      = calculate_hash (decompress_content
          (freshRow "/a/x.txt" (compress_content [104, 105])
            (calculate_hash [104, 105]) 3).content_text) :=
  C6_content_hash_roundtrip.2 [] "/a/x.txt" [104, 105] 3 _
    (by simp [store_file_content, upsertContentRows]) rfl

/-- Concatenating the grader's batches restores the document list. -/
theorem batches5_flatten {α : Type} : ∀ l : List α, (batches5 l).flatten = l
  | [] => rfl
  | [a] => rfl
  | [a, b] => rfl
  | [a, b, c] => rfl
  | [a, b, c, d] => rfl
  | a :: b :: c :: d :: e :: rest => by
    show ([a, b, c, d, e] :: batches5 rest).flatten = _
    rw [List.flatten_cons, batches5_flatten rest]
    rfl

/-- The RELEVANT-filter of a successfully graded batch keeps a subsequence
of the batch. -/
theorem keepRelevant_sublist {α : Type} :
    ∀ (b : List α) (ds : List String),
      List.Sublist ((b.zip ds).filterMap fun p =>
        if pyUpper p.2 = "RELEVANT" then some p.1 else none) b
  | [], _ => by simp
  | _ :: _, [] => by simp
  | x :: xs, d :: ds => by
    rw [List.zip_cons_cons, List.filterMap_cons]
    by_cases h : pyUpper d = "RELEVANT"
    · simp only [if_pos h]
      exact (keepRelevant_sublist xs ds).cons₂ x
    · simp only [if_neg h]
      exact (keepRelevant_sublist xs ds).cons x

/-- One batch iteration either keeps the batch whole (raising call, parse
failure, or decision-count mismatch) or filters it by a successfully parsed
decision list of the batch's length, keeping exactly the RELEVANT-marked
documents. -/
theorem gradeBatch_cases {α : Type} (o : Except Unit String) (b : List α) :
    gradeBatch o b = b ∨
    ∃ reply ds, o = Except.ok reply ∧
      parseDecisions (pyStrip reply) b.length = some ds ∧ ds.length = b.length ∧
      gradeBatch o b = (b.zip ds).filterMap fun p =>
        if pyUpper p.2 = "RELEVANT" then some p.1 else none := by
  cases o with
  | error e => exact Or.inl rfl
  | ok reply =>
    cases hp : parseDecisions (pyStrip reply) b.length with
    | none => exact Or.inl (by simp [gradeBatch, hp])
    | some ds =>
      by_cases hl : ds.length = b.length
      · exact Or.inr ⟨reply, ds, rfl, hp, hl, by simp [gradeBatch, hp, hl]⟩
      · exact Or.inl (by simp [gradeBatch, hp, hl])

/-- One batch iteration of `grade_documents` keeps a subsequence of the
batch. -/
theorem gradeBatch_sublist {α : Type} (o : Except Unit String) (b : List α) :
    List.Sublist (gradeBatch o b) b := by
  rcases gradeBatch_cases o b with h | ⟨reply, ds, _, _, _, h⟩
  · rw [h]
  · rw [h]
    exact keepRelevant_sublist b ds

/-- The batch loop keeps a subsequence of the concatenated batches. -/
theorem enumFrom_gradeBatch_sublist {α : Type} (oracle : Nat → Except Unit String) :
    ∀ (n : Nat) (bs : List (List α)),
      List.Sublist ((List.enumFrom n bs).map fun p => gradeBatch (oracle p.1) p.2).flatten bs.flatten
  | _, [] => by simp
  | n, b :: bs => by
    simp only [List.enumFrom, List.map_cons, List.flatten_cons]
    exact (gradeBatch_sublist (oracle n) b).append (enumFrom_gradeBatch_sublist oracle (n + 1) bs)

/-- A document of a batch the loop keeps whole occurs in the loop's output. -/
theorem mem_flatten_of_kept {α : Type} (oracle : Nat → Except Unit String) :
    ∀ (n : Nat) (bs : List (List α)) (i : Nat) (b : List α),
      bs[i]? = some b →
      ∀ d ∈ gradeBatch (oracle (n + i)) b,
        d ∈ ((List.enumFrom n bs).map fun p => gradeBatch (oracle p.1) p.2).flatten
  | _, [], i, _, h => by simp at h
  | n, b' :: bs, 0, b, h => by
    intro d hd
    simp only [List.getElem?_cons_zero, Option.some_inj] at h
    subst h
    simp only [List.enumFrom, List.map_cons, List.flatten_cons]
    exact List.mem_append_left _ (by simpa using hd)
  | n, b' :: bs, i + 1, b, h => by
    intro d hd
    simp only [List.getElem?_cons_succ] at h
    simp only [List.enumFrom, List.map_cons, List.flatten_cons]
    refine List.mem_append_right _ ?_
    have harith : n + 1 + i = n + (i + 1) := by omega
    exact mem_flatten_of_kept oracle (n + 1) bs i b h d (by rwa [harith])

/-- C5 (amended): grading never reorders or duplicates documents (the output
is a subsequence of the input); every batch whose model reply cannot be
parsed, parses into a decision count different from the batch size, or whose
grading call raises, is kept whole, and each of its documents occurs in the
output; a batch is filtered only by a successfully parsed decision list of
matching length, and then a document is kept exactly when its decision is
`RELEVANT` (so a decision other than `RELEVANT` — not only `NOT_RELEVANT` —
drops it). -/
theorem C5_grader_keep_policy {α : Type} (oracle : Nat → Except Unit String)
    (docs : List α) :
    (grade_documents oracle docs).Sublist docs ∧
    (∀ (i : Nat) (b : List α), (batches5 docs)[i]? = some b →
      gradeBatch (oracle i) b = b ∨
      ∃ reply ds, oracle i = Except.ok reply ∧
        parseDecisions (pyStrip reply) b.length = some ds ∧ ds.length = b.length ∧
        gradeBatch (oracle i) b = (b.zip ds).filterMap fun p =>
          if pyUpper p.2 = "RELEVANT" then some p.1 else none) ∧
    (∀ (i : Nat) (b : List α), (batches5 docs)[i]? = some b →
      gradeBatch (oracle i) b = b →
      ∀ d ∈ b, d ∈ grade_documents oracle docs) := by
  refine ⟨?_, ?_, ?_⟩
  · have h := enumFrom_gradeBatch_sublist (α := α) oracle 0 (batches5 docs)
    rw [batches5_flatten] at h
    exact h
  · intro i b _
    exact gradeBatch_cases (oracle i) b
  · intro i b hb hkeep d hd
    have h := mem_flatten_of_kept oracle 0 (batches5 docs) i b hb d
      (by rw [Nat.zero_add, hkeep]; exact hd)
    exact h

/-- C5 witness: a reply none of the four strategies can parse keeps the
whole batch in the output. -/
theorem C5_keep_policy_witness :
    "a" ∈ grade_documents (fun _ => Except.ok "no decisions here") ["a", "b"] :=
  (C5_grader_keep_policy (fun _ => Except.ok "no decisions here") ["a", "b"]).2.2 0
    ["a", "b"] rfl (by decide) "a" (by decide)

/-- C5 counterexample: a JSON reply `["YES"]` parses successfully with the
right length, and the document is dropped even though its decision is not
`NOT_RELEVANT` — refuting "documents are dropped only when a successfully
parsed decision list marks them NOT_RELEVANT". -/
theorem C5_counterexample :
    grade_documents (fun _ => Except.ok "[\"YES\"]") ["doc"] = ([] : List String) ∧
    parseDecisions "[\"YES\"]" 1 = some ["YES"] ∧
    ("YES" : String) ≠ "NOT_RELEVANT" := by
  refine ⟨by decide, by decide, by decide⟩

/-- Elements of the updated `seen_files` list come from the old list or are
the freshly boosted record. -/
theorem mem_updateSeen (kws : List String) (r : SearchResult) :
    ∀ (seen : List SearchResult) (x : SearchResult), x ∈ updateSeen kws r seen →
      x ∈ seen ∨ x = { r with score := boostedScore kws r } := by
  intro seen
  induction seen with
  | nil =>
    intro x h
    simp only [updateSeen, List.mem_singleton] at h
    exact Or.inr h
  | cons s ss ih =>
    intro x h
    rw [updateSeen] at h
    by_cases hsrc : s.source = r.source
    · rw [if_pos hsrc] at h
      by_cases hsc : s.score < boostedScore kws r
      · rw [if_pos hsc] at h
        rcases List.mem_cons.mp h with h1 | h1
        · exact Or.inr h1
        · exact Or.inl (List.mem_cons_of_mem s h1)
      · rw [if_neg hsc] at h
        exact Or.inl h
    · rw [if_neg hsrc] at h
      rcases List.mem_cons.mp h with h1 | h1
      · exact Or.inl (h1 ▸ List.mem_cons_self s ss)
      · rcases ih x h1 with h2 | h2
        · exact Or.inl (List.mem_cons_of_mem s h2)
        · exact Or.inr h2

/-- The source list of the updated `seen_files` is unchanged (replacement in
place) or extended by the new source at the end (dict insertion order). -/
theorem updateSeen_sources (kws : List String) (r : SearchResult) :
    ∀ seen : List SearchResult,
      (updateSeen kws r seen).map SearchResult.source = seen.map SearchResult.source ∨
      ((updateSeen kws r seen).map SearchResult.source
          = seen.map SearchResult.source ++ [r.source] ∧
        r.source ∉ seen.map SearchResult.source) := by
  intro seen
  induction seen with
  | nil =>
    refine Or.inr ⟨?_, by simp⟩
    simp [updateSeen]
  | cons s ss ih =>
    rw [updateSeen]
    by_cases hsrc : s.source = r.source
    · rw [if_pos hsrc]
      by_cases hsc : s.score < boostedScore kws r
      · rw [if_pos hsc]
        exact Or.inl (by simp [hsrc])
      · rw [if_neg hsc]
        exact Or.inl rfl
    · rw [if_neg hsrc]
      rcases ih with h | ⟨h, hnot⟩
      · exact Or.inl (by simp [h])
      · refine Or.inr ⟨by simp [h], ?_⟩
        simp only [List.map_cons, List.mem_cons]
        rintro (h1 | h1)
        · exact hsrc h1.symm
        · exact hnot h1

/-- Entries for other sources survive the dict update. -/
theorem updateSeen_keeps (kws : List String) (r : SearchResult) :
    ∀ (seen : List SearchResult) (x : SearchResult), x ∈ seen →
      x.source ≠ r.source → x ∈ updateSeen kws r seen := by
  intro seen
  induction seen with
  | nil =>
    intro x h
    exact absurd h (List.not_mem_nil x)
  | cons s ss ih =>
    intro x hx hxs
    rw [updateSeen]
    rcases List.mem_cons.mp hx with h1 | h1
    · subst h1
      rw [if_neg hxs]
      exact List.mem_cons_self _ _
    · by_cases hsrc : s.source = r.source
      · rw [if_pos hsrc]
        by_cases hsc : s.score < boostedScore kws r
        · rw [if_pos hsc]
          exact List.mem_cons_of_mem _ h1
        · rw [if_neg hsc]
          exact List.mem_cons_of_mem s h1
      · rw [if_neg hsrc]
        exact List.mem_cons_of_mem s (ih x h1 hxs)

/-- After the update an entry for the new source exists, and every source
that had an entry still has one. -/
theorem updateSeen_presence (kws : List String) (r : SearchResult) :
    ∀ seen : List SearchResult,
      (∃ y ∈ updateSeen kws r seen, y.source = r.source) ∧
      (∀ x ∈ seen, ∃ y ∈ updateSeen kws r seen, y.source = x.source) := by
  intro seen
  induction seen with
  | nil =>
    refine ⟨⟨{ r with score := boostedScore kws r }, ?_, rfl⟩, ?_⟩
    · simp [updateSeen]
    · intro x h
      exact absurd h (List.not_mem_nil x)
  | cons s ss ih =>
    rw [updateSeen]
    by_cases hsrc : s.source = r.source
    · rw [if_pos hsrc]
      by_cases hsc : s.score < boostedScore kws r
      · rw [if_pos hsc]
        refine ⟨⟨{ r with score := boostedScore kws r }, List.mem_cons_self _ _, rfl⟩, ?_⟩
        intro x hx
        rcases List.mem_cons.mp hx with h1 | h1
        · exact ⟨{ r with score := boostedScore kws r }, List.mem_cons_self _ _,
            by rw [h1, ← hsrc]⟩
        · exact ⟨x, List.mem_cons_of_mem _ h1, rfl⟩
      · rw [if_neg hsc]
        exact ⟨⟨s, List.mem_cons_self s ss, hsrc⟩,
          fun x hx => ⟨x, hx, rfl⟩⟩
    · rw [if_neg hsrc]
      refine ⟨?_, ?_⟩
      · obtain ⟨y, hy, hys⟩ := (ih).1
        exact ⟨y, List.mem_cons_of_mem s hy, hys⟩
      · intro x hx
        rcases List.mem_cons.mp hx with h1 | h1
        · exact ⟨s, List.mem_cons_self _ _, by rw [h1]⟩
        · obtain ⟨y, hy, hys⟩ := (ih).2 x h1
          exact ⟨y, List.mem_cons_of_mem s hy, hys⟩

/-- On a source-deduplicated list, the entry carrying the new record's
source after the update dominates both the new boosted score and every
previous score for that source. -/
theorem updateSeen_max (kws : List String) (r : SearchResult) :
    ∀ seen : List SearchResult, (seen.map SearchResult.source).Nodup →
      ∀ x ∈ updateSeen kws r seen, x.source = r.source →
        boostedScore kws r ≤ x.score ∧
        (∀ s ∈ seen, s.source = r.source → s.score ≤ x.score) := by
  intro seen
  induction seen with
  | nil =>
    intro _ x hx _
    simp only [updateSeen, List.mem_singleton] at hx
    subst hx
    exact ⟨le_refl _, fun s hs => absurd hs (List.not_mem_nil s)⟩
  | cons s ss ih =>
    intro hnd x hx hxs
    simp only [List.map_cons, List.nodup_cons] at hnd
    obtain ⟨hhead, htail⟩ := hnd
    rw [updateSeen] at hx
    by_cases hsrc : s.source = r.source
    · rw [if_pos hsrc] at hx
      by_cases hsc : s.score < boostedScore kws r
      · rw [if_pos hsc] at hx
        rcases List.mem_cons.mp hx with h1 | h1
        · subst h1
          refine ⟨le_refl _, ?_⟩
          intro q hq hqs
          rcases List.mem_cons.mp hq with h2 | h2
          · rw [h2]
            exact le_of_lt hsc
          · exfalso
            apply hhead
            rw [hsrc, ← hqs]
            exact List.mem_map_of_mem SearchResult.source h2
        · exfalso
          apply hhead
          rw [hsrc, ← hxs]
          exact List.mem_map_of_mem SearchResult.source h1
      · rw [if_neg hsc] at hx
        rcases List.mem_cons.mp hx with h1 | h1
        · subst h1
          refine ⟨le_of_not_lt hsc, ?_⟩
          intro q hq hqs
          rcases List.mem_cons.mp hq with h2 | h2
          · rw [h2]
          · exfalso
            apply hhead
            rw [hsrc, ← hqs]
            exact List.mem_map_of_mem SearchResult.source h2
        · exfalso
          apply hhead
          rw [hsrc, ← hxs]
          exact List.mem_map_of_mem SearchResult.source h1
    · rw [if_neg hsrc] at hx
      rcases List.mem_cons.mp hx with h1 | h1
      · exact absurd (h1 ▸ hxs) hsrc
      · obtain ⟨hb, hrest⟩ := ih htail x h1 hxs
        refine ⟨hb, ?_⟩
        intro q hq hqs
        rcases List.mem_cons.mp hq with h2 | h2
        · exact absurd (h2 ▸ hqs) hsrc
        · exact hrest q h2 hqs

/-- The full `seen_files` loop: distinct sources; every surviving entry is a
pool entry with its boost applied whose boosted score dominates every pool
entry of the same source; and every pool source survives. -/
theorem mergeResults_spec (kws : List String) :
    ∀ pool : List SearchResult,
      ((mergeResults kws pool).map SearchResult.source).Nodup ∧
      (∀ x ∈ mergeResults kws pool,
        (∃ p ∈ pool, p.source = x.source ∧
          x = { p with score := boostedScore kws p }) ∧
        (∀ p ∈ pool, p.source = x.source → boostedScore kws p ≤ x.score)) ∧
      (∀ p ∈ pool, ∃ x ∈ mergeResults kws pool, x.source = p.source) := by
  intro pool
  induction pool using List.reverseRecOn with
  | nil =>
    refine ⟨by simp [mergeResults], ?_, ?_⟩
    · intro x hx
      exact absurd hx (by simp [mergeResults])
    · intro p hp
      exact absurd hp (List.not_mem_nil p)
  | append_singleton pool r ih =>
    obtain ⟨ihnd, ihel, ihpres⟩ := ih
    have hstep : mergeResults kws (pool ++ [r])
        = updateSeen kws r (mergeResults kws pool) := by
      simp [mergeResults, List.foldl_append]
    refine ⟨?_, ?_, ?_⟩
    · rcases updateSeen_sources kws r (mergeResults kws pool) with h | ⟨h, hnot⟩
      · rw [hstep, h]
        exact ihnd
      · rw [hstep, h]
        simp only [List.nodup_append, List.nodup_singleton, true_and]
        exact ⟨ihnd, by simpa using hnot⟩
    · intro x hx
      rw [hstep] at hx
      rcases mem_updateSeen kws r (mergeResults kws pool) x hx with hxm | hxr
      · obtain ⟨⟨p, hp, hps, hpe⟩, hmax⟩ := ihel x hxm
        refine ⟨⟨p, List.mem_append_left _ hp, hps, hpe⟩, ?_⟩
        intro q hq hqs
        rcases List.mem_append.mp hq with hql | hqr
        · exact hmax q hql hqs
        · have hq' : q = r := List.mem_singleton.mp hqr
          subst hq'
          exact (updateSeen_max kws q (mergeResults kws pool) ihnd x hx hqs.symm).1
      · subst hxr
        refine ⟨⟨r, List.mem_append_right _ (List.mem_singleton_self r), rfl, rfl⟩, ?_⟩
        intro q hq hqs
        rcases List.mem_append.mp hq with hql | hqr
        · obtain ⟨y, hy, hys⟩ := ihpres q hql
          have h1 : boostedScore kws q ≤ y.score := (ihel y hy).2 q hql hys.symm
          have h2 : y.score ≤ boostedScore kws r :=
            (updateSeen_max kws r (mergeResults kws pool) ihnd _ hx rfl).2 y hy
              (hys.trans hqs)
          exact le_trans h1 h2
        · have hq' : q = r := List.mem_singleton.mp hqr
          subst hq'
          exact le_refl _
    · intro p hp
      rw [hstep]
      rcases List.mem_append.mp hp with hpl | hpr
      · obtain ⟨y, hy, hys⟩ := ihpres p hpl
        obtain ⟨z, hz, hzs⟩ := (updateSeen_presence kws r (mergeResults kws pool)).2 y hy
        exact ⟨z, hz, hzs.trans hys⟩
      · have hp' : p = r := List.mem_singleton.mp hpr
        subst hp'
        exact (updateSeen_presence kws p (mergeResults kws pool)).1

/-- Membership in a stable descending insertion. -/
theorem mem_insertDesc (x : SearchResult) :
    ∀ (l : List SearchResult) (y : SearchResult),
      y ∈ insertDesc x l ↔ y = x ∨ y ∈ l := by
  intro l
  induction l with
  | nil => intro y; simp [insertDesc]
  | cons z zs ih =>
    intro y
    rw [insertDesc]
    by_cases h : z.score ≤ x.score
    · rw [if_pos h]
      simp [List.mem_cons]
    · rw [if_neg h]
      simp only [List.mem_cons, ih]
      tauto

/-- `insertDesc` permutes a cons. -/
theorem perm_insertDesc (x : SearchResult) :
    ∀ l : List SearchResult, (insertDesc x l).Perm (x :: l) := by
  intro l
  induction l with
  | nil => exact List.Perm.refl _
  | cons y ys ih =>
    rw [insertDesc]
    by_cases h : y.score ≤ x.score
    · rw [if_pos h]
    · rw [if_neg h]
      exact (ih.cons y).trans (List.Perm.swap x y ys)

/-- `sortDesc` permutes its input. -/
theorem perm_sortDesc : ∀ l : List SearchResult, (sortDesc l).Perm l
  | [] => List.Perm.refl _
  | x :: xs => by
    rw [sortDesc]
    exact (perm_insertDesc x (sortDesc xs)).trans ((perm_sortDesc xs).cons x)

/-- Insertion preserves the descending ordering. -/
theorem sorted_insertDesc (x : SearchResult) :
    ∀ l : List SearchResult, l.Pairwise (fun a b => b.score ≤ a.score) →
      (insertDesc x l).Pairwise (fun a b => b.score ≤ a.score) := by
  intro l
  induction l with
  | nil =>
    intro _
    simp [insertDesc]
  | cons y ys ih =>
    intro h
    rw [List.pairwise_cons] at h
    obtain ⟨hy, hys⟩ := h
    rw [insertDesc]
    by_cases hc : y.score ≤ x.score
    · rw [if_pos hc]
      rw [List.pairwise_cons]
      refine ⟨?_, List.pairwise_cons.mpr ⟨hy, hys⟩⟩
      intro z hz
      rcases List.mem_cons.mp hz with h1 | h1
      · rw [h1]
        exact hc
      · exact le_trans (hy z h1) hc
    · rw [if_neg hc]
      rw [List.pairwise_cons]
      refine ⟨?_, ih hys⟩
      intro z hz
      rcases (mem_insertDesc x ys z).mp hz with h1 | h1
      · rw [h1]
        exact le_of_lt (lt_of_not_le hc)
      · exact hy z h1

/-- `sortDesc` sorts by descending score. -/
theorem sorted_sortDesc : ∀ l : List SearchResult,
    (sortDesc l).Pairwise (fun a b => b.score ≤ a.score)
  | [] => List.Pairwise.nil
  | x :: xs => by
    rw [sortDesc]
    exact sorted_insertDesc x (sortDesc xs) (sorted_sortDesc xs)

/-- C3 (amended): the merged result list has at most `k` entries, at most one
per source path, sorted by score descending; each returned entry is a pool
entry (from the dense or keyword branch) with its own boost applied, and its
stored (boosted) score dominates the boosted score of every pool entry for
the same path — i.e. selection per path is by the highest *boosted* score,
not by the highest pre-boost fused score. -/
theorem C3_hybrid_merge (query : String) (k : Nat) (sem kw : List SearchResult) :
    (hybrid_search query k sem kw).length ≤ k ∧
    ((hybrid_search query k sem kw).map SearchResult.source).Nodup ∧
    (hybrid_search query k sem kw).Pairwise (fun a b => b.score ≤ a.score) ∧
    ∀ x ∈ hybrid_search query k sem kw,
      (∃ p ∈ sem ++ kw, p.source = x.source ∧
        x = { p with score := boostedScore (main_keywords query) p }) ∧
      (∀ p ∈ sem ++ kw, p.source = x.source →
        boostedScore (main_keywords query) p ≤ x.score) := by
  obtain ⟨hnd, hel, _⟩ := mergeResults_spec (main_keywords query) (sem ++ kw)
  have hperm := perm_sortDesc (mergeResults (main_keywords query) (sem ++ kw))
  refine ⟨List.length_take_le k _, ?_, ?_, ?_⟩
  · have h1 : ((sortDesc (mergeResults (main_keywords query) (sem ++ kw))).map
        SearchResult.source).Nodup :=
      ((hperm.map SearchResult.source).nodup_iff).mpr hnd
    have h2 : ((hybrid_search query k sem kw).map SearchResult.source).Sublist
        ((sortDesc (mergeResults (main_keywords query) (sem ++ kw))).map
          SearchResult.source) := by
      unfold hybrid_search
      exact (List.take_sublist k _).map SearchResult.source
    exact h1.sublist h2
  · unfold hybrid_search
    exact (sorted_sortDesc _).sublist (List.take_sublist k _)
  · intro x hx
    have hx' : x ∈ mergeResults (main_keywords query) (sem ++ kw) := by
      have := List.mem_of_mem_take hx
      exact hperm.mem_iff.mp this
    exact hel x hx'

/-- Evaluation of the `seen_files` loop on two same-source records whose
boosted order favours the second. -/
theorem mergeResults_pair (kws : List String) (r1 r2 : SearchResult)
    (hsame : r1.source = r2.source)
    (hlt : boostedScore kws r1 < boostedScore kws r2) :
    mergeResults kws [r1, r2] = [{ r2 with score := boostedScore kws r2 }] := by
  unfold mergeResults
  simp only [List.foldl_cons, List.foldl_nil]
  rw [show updateSeen kws r1 []
      = [{ r1 with score := boostedScore kws r1 }] from rfl]
  rw [updateSeen]
  rw [if_pos hsame, if_pos hlt]

/-- Evaluation of the claim-literal pre-boost loop on two same-source
records whose raw order favours the first. -/
theorem mergeClaimed_pair (r1 r2 : SearchResult)
    (hsame : r1.source = r2.source) (hnlt : ¬ r1.score < r2.score) :
    [r1, r2].foldl (fun seen r => updateSeenClaimed r seen) [] = [r1] := by
  simp only [List.foldl_cons, List.foldl_nil]
  rw [show updateSeenClaimed r1 [] = [r1] from rfl]
  rw [updateSeenClaimed]
  rw [if_pos hsame, if_neg hnlt]

/-- C3 counterexample: two chunks of the same path where the pre-boost
maximum and the boosted maximum differ.  The code keeps the chunk whose
*boosted* score is higher (`"chunk two"`, score 2/5 + 3/10 = 7/10); the
claim's literal reading (keep the chunk with the highest fused score, then
boost it) would keep `"chunk one"` at score 1/2. -/
theorem C3_counterexample :
    hybrid_search "topic" 5
      [{ content := "chunk one", source := "/data/f.txt", summary := "",
         score := 1/2, method := "semantic" },
       { content := "chunk two", source := "/data/f.txt", summary := "topic notes",
         score := 2/5, method := "semantic" }] []
      = [{ content := "chunk two", source := "/data/f.txt", summary := "topic notes",
           score := 7/10, method := "semantic" }] ∧
    hybrid_search_claimed "topic" 5
      [{ content := "chunk one", source := "/data/f.txt", summary := "",
         score := 1/2, method := "semantic" },
       { content := "chunk two", source := "/data/f.txt", summary := "topic notes",
         score := 2/5, method := "semantic" }] []
      = [{ content := "chunk one", source := "/data/f.txt", summary := "",
           score := 1/2, method := "semantic" }] := by
  have hb1 : boostedScore (main_keywords "topic")
      { content := "chunk one", source := "/data/f.txt", summary := "",
        score := 1/2, method := "semantic" } = 1/2 := by
    simp only [boostedScore]
    rw [if_neg (by decide)]
  have hb2 : boostedScore (main_keywords "topic")
      { content := "chunk two", source := "/data/f.txt", summary := "topic notes",
        score := 2/5, method := "semantic" } = 2/5 + 3/10 := by
    simp only [boostedScore]
    rw [if_pos (by decide)]
  constructor
  · show (sortDesc (mergeResults (main_keywords "topic") _)).take 5 = _
    rw [List.append_nil,
      mergeResults_pair (main_keywords "topic")
        { content := "chunk one", source := "/data/f.txt", summary := "",
          score := 1/2, method := "semantic" }
        { content := "chunk two", source := "/data/f.txt", summary := "topic notes",
          score := 2/5, method := "semantic" }
        rfl (by rw [hb1, hb2]; norm_num)]
    rw [show ∀ x : SearchResult, (sortDesc [x]).take 5 = [x] from fun x => rfl]
    rw [hb2]
    simp only [SearchResult.mk.injEq]
    norm_num
  · show (sortDesc (List.map _ (List.foldl _ [] _))).take 5 = _
    rw [List.append_nil,
      mergeClaimed_pair
        { content := "chunk one", source := "/data/f.txt", summary := "",
          score := 1/2, method := "semantic" }
        { content := "chunk two", source := "/data/f.txt", summary := "topic notes",
          score := 2/5, method := "semantic" }
        rfl (by norm_num)]
    simp only [List.map_cons, List.map_nil]
    rw [show ∀ x : SearchResult, (sortDesc [x]).take 5 = [x] from fun x => rfl]
    rw [hb1]

/-- C3 witness: the amended per-path maximality applied to a concrete merge. -/
theorem C3_hybrid_merge_witness :
    boostedScore (main_keywords "hello")
      { content := "c", source := "/a/b.txt", summary := "", score := 1/2,
        method := "semantic" }
      ≤ ({ content := "c", source := "/a/b.txt", summary := "", score := 1/2,
           method := "semantic" : SearchResult }).score :=
  ((C3_hybrid_merge "hello" 5
      [{ content := "c", source := "/a/b.txt", summary := "", score := 1/2,
         method := "semantic" }] []).2.2.2
    { content := "c", source := "/a/b.txt", summary := "", score := 1/2,
      method := "semantic" } (List.mem_singleton_self _)).2
    { content := "c", source := "/a/b.txt", summary := "", score := 1/2,
      method := "semantic" } (List.mem_append_left _ (List.mem_singleton_self _)) rfl

/-- Under the adversarial environment the machine loops: one full
retrieve → grade → decide → transform cycle maps `cycleCfg v` to
`cycleCfg (v + 1)` — `after_transform` routes back to `retrieve` because the
stale `_retry_retrieve` flag is still set and `attempts` stays at 1. -/
theorem wf_cycle (q : String) (v : Nat) (hv : v ≠ 0) :
    wfStep advOracles (wfStep advOracles (wfStep advOracles
      (wfStep advOracles (cycleCfg q v)))) = cycleCfg q (v + 1) := by
  simp [wfStep, advOracles, cycleCfg, nextAfterTransform, hv]

/-- The adversarial run sits at `cycleCfg v` after `4 * v` steps, for every
`v ≥ 2`. -/
theorem wfRun_cycle (v : Nat) (hv : 2 ≤ v) :
    wfRun advOracles "the sorting thing" 5 (4 * v)
      = cycleCfg "the sorting thing" v := by
  induction v, hv using Nat.le_induction with
  | base => decide
  | succ n hn ih =>
    have h4 : 4 * (n + 1) = 4 * n + 1 + 1 + 1 + 1 := by ring
    rw [h4]
    show wfStep advOracles (wfStep advOracles (wfStep advOracles
      (wfStep advOracles (wfRun advOracles "the sorting thing" 5 (4 * n))))) = _
    rw [ih]
    exact wf_cycle "the sorting thing" n (by omega)

/-- C1: (code bug) the self-correcting workflow does *not* always terminate
within `max_attempts + 1 = 4` retrieve visits: with a grader that filters
out every document and a transformer that produces one rewrite and then
fails (returns `None`) on every later call, the machine revisits `Retrieve`
beyond every bound and never reaches `Done` — after `4 * (m + 2)` steps it
has run `retrieve_node` `m + 2` times, is at `Retrieve` again, and has
produced no generation result.  The `_retry_retrieve` flag set by the first
successful transform is never cleared, and `attempts` is not incremented on
failed transforms, so `after_transform` keeps answering `"retrieve"`. -/
theorem C1_workflow_nonterminating :
    ∀ m : Nat,
      (wfRun advOracles "the sorting thing" 5 (4 * (m + 2))).retrieveVisits = m + 2 ∧
      (wfRun advOracles "the sorting thing" 5 (4 * (m + 2))).node = WFNode.retrieve ∧
      (wfRun advOracles "the sorting thing" 5 (4 * (m + 2))).st.generation_result
        = none := by
  intro m
  rw [wfRun_cycle (m + 2) (by omega)]
  exact ⟨rfl, rfl, rfl⟩

end FileGPT
